import Mathlib

/-!
Verification of the sourcelynk repository's format-identification and
repository-resolution pipeline against its specification.

The development shallowly embeds the two source files:

* `src/magic.rs` — header-byte classification (`file_type` and the enums
  `ElfEndianess`, `ElfType`, `FileType`);
* `src/main.rs` — repository resolution (`repos_from_source_files`),
  candidate filtering (`is_possible_symbol_file`) and URL-template
  generation (`generate_mapping`, `generate_url`, `generate_github_url`,
  `generate_azure_devops_url`).

Machine bytes are modelled as `Fin 256`; the fixed 32-byte header array
`[u8; 32]` is modelled as a total function `Fin 32 → Fin 256`, so every
index the Rust code uses on the header is in bounds by construction.
External collaborators (filesystem, libgit2, the `url` crate's parser)
are modelled at the interface boundary the specification gives them.
-/

/-- A machine byte (`u8`). -/
abbrev Byte := Fin 256

/-- The fixed 32-byte header buffer `[u8; 32]` read by `file_type`. -/
abbrev Header := Fin 32 → Byte

/-- `enum ElfEndianess` from `src/magic.rs`. -/
inductive ElfEndianess
  | Little
  | Big
  | Unknown
deriving DecidableEq

/-- `impl From<u8> for ElfEndianess` from `src/magic.rs`: `0x01` is little
endian, `0x02` big endian, anything else unknown.  The argument is the
byte's numeric value. -/
def ElfEndianess.fromU8 (num : Nat) : ElfEndianess :=
  match num with
  | 0x01 => ElfEndianess.Little
  | 0x02 => ElfEndianess.Big
  | _ => ElfEndianess.Unknown

/-- `enum ElfType` from `src/magic.rs`. -/
inductive ElfType
  | None
  | Rel
  | Exec
  | Dyn
  | Core
  | Unknown
deriving DecidableEq

/-- `impl From<u16> for ElfType` from `src/magic.rs`.  The argument is the
16-bit value `((upper_byte as u16) << 8) | (lower_byte as u16)`; both
bytes are below 256 so the `u16` arithmetic cannot overflow and plain
`Nat` arithmetic is exact. -/
def ElfType.fromU16 (num : Nat) : ElfType :=
  match num with
  | 0x00 => ElfType.None
  | 0x01 => ElfType.Rel
  | 0x02 => ElfType.Exec
  | 0x03 => ElfType.Dyn
  | 0x04 => ElfType.Core
  | _ => ElfType.Unknown

/-- `enum FileType` from `src/magic.rs`. -/
inductive FileType
  | Unknown
  | Pdb
  | Elf (t : ElfType)
  | PE
  | MachO
deriving DecidableEq

/-- The 27-byte PDB signature `b"crosoft C/C++ MSF 7.00\r\n\x1a\x44\x53"`
compared against `buf[2..29]` in `src/magic.rs`. -/
def pdbMagic : List Byte :=
  [0x63, 0x72, 0x6F, 0x73, 0x6F, 0x66, 0x74, 0x20,
   0x43, 0x2F, 0x43, 0x2B, 0x2B, 0x20,
   0x4D, 0x53, 0x46, 0x20,
   0x37, 0x2E, 0x30, 0x30,
   0x0D, 0x0A, 0x1A, 0x44, 0x53]

/-- The slice `&buf[2..29]` of the header: 27 bytes starting at offset 2. -/
def pdbSlice (buf : Header) : List Byte :=
  List.ofFn (fun i : Fin 27 => buf ⟨2 + i.val, by omega⟩)

/-- The byte-dispatch of `file_type` in `src/magic.rs`, applied to the
32-byte buffer after a successful `read_exact`.  Each branch mirrors the
source `match buf[0]` arm for arm; slice comparisons such as
`&buf[1..4] == b"ELF"` become list equalities. -/
def classifyBuf (buf : Header) : FileType :=
  if buf 0 = 0x7F then
    if [buf 1, buf 2, buf 3] = [0x45, 0x4C, 0x46] then
      match ElfEndianess.fromU8 (buf 5).val with
      | ElfEndianess.Little =>
          FileType.Elf (ElfType.fromU16 (((buf 17).val <<< 8) ||| (buf 16).val))
      | ElfEndianess.Big =>
          FileType.Elf (ElfType.fromU16 (((buf 16).val <<< 8) ||| (buf 17).val))
      | ElfEndianess.Unknown => FileType.Unknown
    else FileType.Unknown
  else if buf 0 = 0x4D then
    if buf 1 = 0x5A then FileType.PE
    else if buf 1 = 0x69 then
      if pdbSlice buf = pdbMagic then FileType.Pdb else FileType.Unknown
    else FileType.Unknown
  else if buf 0 = 0xFE then
    if [buf 1, buf 2, buf 3] = [0xED, 0xFA, 0xCE] ∨
       [buf 1, buf 2, buf 3] = [0xED, 0xFA, 0xCF] then
      FileType.MachO
    else FileType.Unknown
  else if buf 0 = 0xCE ∨ buf 0 = 0xCF then
    if [buf 1, buf 2, buf 3] = [0xFA, 0xED, 0xFE] then FileType.MachO
    else FileType.Unknown
  else FileType.Unknown

/-- The pure classification contract of `file_type` in `src/magic.rs`
(the spec's `classify(header, file_length)`): files shorter than 32 bytes
are `Unknown`, otherwise the 32-byte header decides. -/
def classify (len : Nat) (buf : Header) : FileType :=
  if len < 32 then FileType.Unknown else classifyBuf buf

/-- An I/O error value (`std::io::Error`), distinguished by a code. -/
structure IOError where
  code : Nat
deriving DecidableEq

/-- A file as `file_type` observes it: the result of `metadata()?.len()`
and the result of `read_exact` on the 32-byte buffer. -/
structure FileModel where
  metadataLen : Except IOError Nat
  readExact : Except IOError Header

/-- `file_type` from `src/magic.rs` with the `?` operator made explicit:
an error from either read propagates; a short file is `Ok(Unknown)`
without the buffer ever being read. -/
def file_type (f : FileModel) : Except IOError FileType :=
  match f.metadataLen with
  | Except.error e => Except.error e
  | Except.ok len =>
    if len < 32 then Except.ok FileType.Unknown
    else
      match f.readExact with
      | Except.error e => Except.error e
      | Except.ok buf => Except.ok (classifyBuf buf)

/-- `is_possible_symbol_file` from `src/main.rs`, restricted to the
classification it matches on (the value of
`magic::file_type(file).unwrap_or(FileType::Unknown)`); the arms are
copied from the source match. -/
def is_possible_symbol_file (t : FileType) : Bool :=
  match t with
  | FileType.Elf ElfType.Exec
  | FileType.Elf ElfType.Dyn
  | FileType.Pdb => true
  | FileType.Elf ElfType.None
  | FileType.Elf ElfType.Core
  | FileType.Elf ElfType.Rel
  | FileType.Elf ElfType.Unknown
  | FileType.MachO
  | FileType.PE
  | FileType.Unknown => false

/-- `git2::ErrorCode` as `src/main.rs` discriminates it: `NotFound` versus
every other code. -/
inductive GitErrorCode
  | NotFound
  | Other
deriving DecidableEq

/-- Equality of `Except` results is decidable when both components are. -/
instance {ε α : Type} [DecidableEq ε] [DecidableEq α] : DecidableEq (Except ε α) :=
  fun a b =>
    match a, b with
    | Except.error e, Except.error f => decidable_of_iff (e = f) (by simp)
    | Except.ok x, Except.ok y => decidable_of_iff (x = y) (by simp)
    | Except.error _, Except.ok _ => isFalse (fun h => by cases h)
    | Except.ok _, Except.error _ => isFalse (fun h => by cases h)

/-- Modelled from the spec: the version-control backend interface (§6),
which is the part of `git2::Repository` that `src/main.rs` consumes.
Paths are sequences of components, so `strip_prefix` and forward-slash
normalization are exact.  `trackedAtHead` is the set of relative paths
for which `head().peel_to_tree().get_path(...)` succeeds;
`findRemoteOrigin` is the combined result of `find_remote("origin")` and
`remote.url()` (`Except.error` = no such remote or another git error,
`Except.ok none` = remote present but its URL is invalid); `headTarget`
is the hex revision hash `head().target()`. -/
structure GitRepo where
  workdir : List String
  trackedAtHead : List (List String)
  findRemoteOrigin : Except GitErrorCode (Option String)
  headTarget : String
deriving DecidableEq

/-- Modelled from the spec: one entry of the source-file list (§6) together
with the two environment observations `src/main.rs` makes about it:
`onDisk` is `file.path.is_file()` and `discovered` is the result of
`repo_from_source_file` (`Repository::discover` with both `NotFound` and
unexpected errors already collapsed to `none`, as the source does). -/
structure FileEntry where
  path : List String
  onDisk : Bool
  discovered : Option GitRepo
deriving DecidableEq

/-- `file.path.strip_prefix(repo.workdir()).unwrap()` followed by
`to_slash`: in the component model the relative path is the suffix after
the working-tree root, and separator normalization is the identity.
`Repository::discover` only returns a tree whose root contains the path,
so the `unwrap` cannot fail. -/
def rel_path (path workdir : List String) : List String :=
  path.drop workdir.length

/-- One iteration of the loop body of `repos_from_source_files` in
`src/main.rs`, acting on the accumulated `repos` vector. -/
def reposStep (repos : List GitRepo) (file : FileEntry) : List GitRepo :=
  if file.onDisk then
    match file.discovered with
    | some repo =>
      if repos.any (fun x => x.workdir == repo.workdir) then
        repos
      else if rel_path file.path repo.workdir ∈ repo.trackedAtHead then
        repos ++ [repo]
      else
        repos
    | none => repos
  else repos

/-- `repos_from_source_files` from `src/main.rs`: fold the loop body over
the source files, starting from the empty vector. -/
def repos_from_source_files (source_files : List FileEntry) : List GitRepo :=
  source_files.foldl reposStep []

/-- A Rust panic observed while generating a URL: an out-of-range index
on the path-segment vector, or an `unwrap()` of a `None`. -/
inductive PanicE
  | indexOutOfRange
  | unwrapFailed
deriving DecidableEq

/-- A parsed `url::Url` at the interface the code uses: scheme, optional
domain, and the path segments (`path_segments()`). -/
structure Url where
  scheme : String
  domain : Option String
  pathSegments : List String
deriving DecidableEq

/-- Split a character list at every occurrence of the character `c`:
n separators yield n + 1 (possibly empty) fields.  (A structurally
recursive stand-in for `str::split` / `String.splitOn`.) -/
def splitChar (c : Char) : List Char → List (List Char)
  | [] => [[]]
  | a :: rest =>
    match splitChar c rest with
    | [] => [[]]
    | x :: xs => if a = c then [] :: x :: xs else (a :: x) :: xs

/-- Split a string at every occurrence of the character `c`. -/
def splitString (c : Char) (s : String) : List String :=
  (splitChar c s.data).map String.mk

/-- Split a character list around the first occurrence of the separator
sequence `sep`: the part before it and the part after it. -/
def breakOnSeq (sep : List Char) : List Char → Option (List Char × List Char)
  | [] => none
  | a :: rest =>
    if sep.isPrefixOf (a :: rest) then
      some ([], (a :: rest).drop sep.length)
    else
      match breakOnSeq sep rest with
      | none => none
      | some (pre, post) => some (a :: pre, post)

/-- `str::ends_with`: suffix test on the character list. -/
def strEndsWith (s suffixStr : String) : Bool :=
  suffixStr.data.isSuffixOf s.data

/-- Modelled from the spec: the external URL parser (`url::Url::parse`,
step 3 of §4.3 — "Parse the URL as a structured URL (scheme, domain,
path segments)").  A hierarchical `scheme://host/seg/.../seg` URL parses
into its host and the segments after it; a URL with an empty path parses
with the single empty segment, as the `url` crate normalizes the path of
a base URL to `/`.  Hosts are modelled as domains (the claims only
concern named hosts). -/
def parseUrl (s : String) : Option Url :=
  match breakOnSeq [':', '/', '/'] s.data with
  | none => none
  | some (schemeCs, restCs) =>
    if schemeCs = [] then none
    else
      match splitChar '/' restCs with
      | [] => none
      | hostCs :: segCss =>
        if hostCs = [] then none
        else
          some ⟨String.mk schemeCs, some (String.mk hostCs),
            if segCss = [] then [""] else segCss.map String.mk⟩

/-- `generate_github_url` from `src/main.rs`.  `components[0]` and
`components[1]` panic when out of range; the panic is made explicit as
`Except.error`.  The final `url::Url::parse(&url_str).unwrap()` followed
by `Url::into::<String>` round-trips on the strings this format
produces, so the result is modelled as the formatted string. -/
def generate_github_url (url : Url) (hash : String) : Except PanicE String :=
  let components := url.pathSegments
  match components.get? 0 with
  | none => Except.error PanicE.indexOutOfRange
  | some user =>
    match components.get? 1 with
    | none => Except.error PanicE.indexOutOfRange
    | some repo =>
      Except.ok ("https://api.github.com/repos/" ++ user ++ "/" ++ repo ++
        "/contents/*?ref=" ++ hash)

/-- `generate_azure_devops_url` from `src/main.rs`: organization is the
first dot-separated label of the domain, project is path segment 1 and
repository path segment 3; the out-of-range indexes and failing
`unwrap()`s are made explicit as `Except.error`. -/
def generate_azure_devops_url (url : Url) (hash : String) : Except PanicE String :=
  let components := url.pathSegments
  match url.domain with
  | none => Except.error PanicE.unwrapFailed
  | some domain =>
    match (splitString '.' domain).get? 0 with
    | none => Except.error PanicE.unwrapFailed
    | some organization =>
      match components.get? 1 with
      | none => Except.error PanicE.indexOutOfRange
      | some project =>
        match components.get? 3 with
        | none => Except.error PanicE.indexOutOfRange
        | some repo =>
          Except.ok ("https://dev.azure.com/" ++ organization ++ "/" ++ project ++
            "/_apis/git/repositories/" ++ repo ++
            "/items?versionDescriptor.versionType=commit&versionDescriptor.version=" ++
            hash ++ "&api-version=5.1&path=/*")

/-- `generate_url` from `src/main.rs`: dispatch on the domain; `Ok none`
is the "unsupported domain / no domain" skip, and a panic inside a
provider generator propagates. -/
def generate_url (url : Url) (hash : String) : Except PanicE (Option String) :=
  match url.domain with
  | some domain =>
    if domain = "github.com" then
      (generate_github_url url hash).map some
    else if strEndsWith domain "visualstudio.com" then
      (generate_azure_devops_url url hash).map some
    else Except.ok none
  | none => Except.ok none

/-- Join path components with forward slashes (the key
`workdir.join("*")` rendered as a slash path). -/
def joinPath (p : List String) : String :=
  String.intercalate "/" p

/-- `HashMap::insert` on an association list: any existing binding of the
key is replaced, and the new binding is present. -/
def hmInsert (m : List (String × String)) (k v : String) : List (String × String) :=
  m.filter (fun p => p.1 != k) ++ [(k, v)]

/-- One iteration of the loop body of `generate_mapping` in
`src/main.rs`: look up the `origin` remote, read and parse its URL
(each failure skips the repository), then `generate_url`; a `Some`
result is inserted under the key `workdir.join("*")`.  A panic inside
`generate_url` aborts the whole fold. -/
def mappingStep (map : List (String × String)) (repo : GitRepo) :
    Except PanicE (List (String × String)) :=
  match repo.findRemoteOrigin with
  | Except.error _ => Except.ok map
  | Except.ok none => Except.ok map
  | Except.ok (some urlStr) =>
    match parseUrl urlStr with
    | none => Except.ok map
    | some remoteUrl =>
      match generate_url remoteUrl repo.headTarget with
      | Except.error p => Except.error p
      | Except.ok (some url) =>
          Except.ok (hmInsert map (joinPath (repo.workdir ++ ["*"])) url)
      | Except.ok none => Except.ok map

/-- `generate_mapping` from `src/main.rs`: fold the loop body over the
resolved repositories, starting from the empty map.  (`head().unwrap()`
and `target().unwrap()` are the spec's hard precondition §4.3 step 4 and
are part of the `GitRepo` interface model.) -/
def generate_mapping (repos : List GitRepo) : Except PanicE (List (String × String)) :=
  repos.foldlM mappingStep []

/-- A 32-byte buffer built from a list of byte values (padding with 0). -/
def bufOfList (l : List Nat) : Header :=
  fun i => Fin.ofNat' 256 (l.getD i.val 0)

/-- C3: for every file shorter than 32 bytes the classification is
`Unknown`, whatever the header bytes are. -/
theorem classify_short_is_unknown (len : Nat) (buf : Header) (h : len < 32) :
    classify len buf = FileType.Unknown := by
  simp [classify, h]

theorem classify_short_is_unknown_witness :
    classify 5 (bufOfList [0x7F, 0x45, 0x4C, 0x46, 0x01]) = FileType.Unknown :=
  classify_short_is_unknown 5 (bufOfList [0x7F, 0x45, 0x4C, 0x46, 0x01]) (by decide)

/-- C7: the candidate filter accepts a classification exactly when it is
`Elf Exec`, `Elf Dyn` or `Pdb`; every other classification is
rejected. -/
theorem is_possible_symbol_file_iff (t : FileType) :
    is_possible_symbol_file t = true ↔
      (t = FileType.Elf ElfType.Exec ∨ t = FileType.Elf ElfType.Dyn ∨
        t = FileType.Pdb) := by
  cases t with
  | Unknown => simp [is_possible_symbol_file]
  | Pdb => simp [is_possible_symbol_file]
  | PE => simp [is_possible_symbol_file]
  | MachO => simp [is_possible_symbol_file]
  | Elf k => cases k <;> simp [is_possible_symbol_file]

/-- C9: when reading the 32-byte header fails, `file_type` propagates the
I/O error, and that error result is distinct from a successful `Unknown`
classification. -/
theorem file_type_propagates_read_error (f : FileModel) (len : Nat) (e : IOError)
    (hm : f.metadataLen = Except.ok len) (hlen : 32 ≤ len)
    (hr : f.readExact = Except.error e) :
    file_type f = Except.error e ∧
      (Except.error e : Except IOError FileType) ≠ Except.ok FileType.Unknown := by
  refine ⟨?_, by simp⟩
  simp [file_type, hm, hr, Nat.not_lt.mpr hlen]

/-- A file whose metadata read succeeds but whose header read fails. -/
def unreadableFile : FileModel :=
  { metadataLen := Except.ok 100, readExact := Except.error ⟨5⟩ }

theorem file_type_propagates_read_error_witness :
    file_type unreadableFile = Except.error ⟨5⟩ ∧
      (Except.error ⟨5⟩ : Except IOError FileType) ≠ Except.ok FileType.Unknown :=
  file_type_propagates_read_error unreadableFile 100 ⟨5⟩ rfl (by decide) rfl

/-- C4: a 32-byte-or-longer header starting `7F 45 4C 46` with byte 5 =
`0x01` (little endian) and type bytes `(16,17) = (02,00)` classifies as
`Elf Exec`; flipping byte 5 to `0x02` (big endian) and the type bytes to
`(00,02)` classifies the same way — the 16-bit type field round-trips
through the endianness swap. -/
theorem classify_elf_exec_endianness (len : Nat) (buf : Header) (hlen : 32 ≤ len)
    (h0 : buf 0 = 0x7F) (h1 : buf 1 = 0x45) (h2 : buf 2 = 0x4C) (h3 : buf 3 = 0x46)
    (h5 : buf 5 = 0x01) (h16 : buf 16 = 0x02) (h17 : buf 17 = 0x00) :
    classify len buf = FileType.Elf ElfType.Exec ∧
    classify len
      (Function.update (Function.update (Function.update buf 5 0x02) 16 0x00) 17 0x02)
      = FileType.Elf ElfType.Exec := by
  have hnl : ¬ len < 32 := Nat.not_lt.mpr hlen
  constructor
  · unfold classify classifyBuf
    rw [if_neg hnl, h0, h1, h2, h3, h5, h16, h17, if_pos rfl, if_pos rfl]
    decide
  · have e0 : (Function.update (Function.update (Function.update buf 5 0x02) 16 0x00)
        17 0x02) 0 = buf 0 := by
      rw [Function.update_noteq (by decide), Function.update_noteq (by decide),
        Function.update_noteq (by decide)]
    have e1 : (Function.update (Function.update (Function.update buf 5 0x02) 16 0x00)
        17 0x02) 1 = buf 1 := by
      rw [Function.update_noteq (by decide), Function.update_noteq (by decide),
        Function.update_noteq (by decide)]
    have e2 : (Function.update (Function.update (Function.update buf 5 0x02) 16 0x00)
        17 0x02) 2 = buf 2 := by
      rw [Function.update_noteq (by decide), Function.update_noteq (by decide),
        Function.update_noteq (by decide)]
    have e3 : (Function.update (Function.update (Function.update buf 5 0x02) 16 0x00)
        17 0x02) 3 = buf 3 := by
      rw [Function.update_noteq (by decide), Function.update_noteq (by decide),
        Function.update_noteq (by decide)]
    have e5 : (Function.update (Function.update (Function.update buf 5 0x02) 16 0x00)
        17 0x02) 5 = 0x02 := by
      rw [Function.update_noteq (by decide), Function.update_noteq (by decide),
        Function.update_same]
    have e16 : (Function.update (Function.update (Function.update buf 5 0x02) 16 0x00)
        17 0x02) 16 = 0x00 := by
      rw [Function.update_noteq (by decide), Function.update_same]
    have e17 : (Function.update (Function.update (Function.update buf 5 0x02) 16 0x00)
        17 0x02) 17 = 0x02 := Function.update_same _ _ _
    unfold classify classifyBuf
    rw [if_neg hnl, e0, e1, e2, e3, e5, e16, e17, h0, h1, h2, h3, if_pos rfl, if_pos rfl]
    decide

/-- A little-endian ELF executable header. -/
def elfExecLEBytes : List Nat :=
  [0x7F, 0x45, 0x4C, 0x46, 0, 0x01, 0, 0, 0, 0, 0, 0, 0, 0, 0, 0, 0x02, 0x00]

theorem classify_elf_exec_endianness_witness :
    classify 40 (bufOfList elfExecLEBytes) = FileType.Elf ElfType.Exec ∧
    classify 40
      (Function.update (Function.update (Function.update (bufOfList elfExecLEBytes)
        5 0x02) 16 0x00) 17 0x02)
      = FileType.Elf ElfType.Exec :=
  classify_elf_exec_endianness 40 (bufOfList elfExecLEBytes) (by decide) (by decide)
    (by decide) (by decide) (by decide) (by decide) (by decide) (by decide)

/-- C10: for files of length at least 32, classification depends only on
header bytes 0 through 28 — two headers agreeing on their first 29 bytes
classify identically, whatever bytes 29–31 hold. -/
theorem classify_uses_only_first29 (len : Nat) (b1 b2 : Header) (hlen : 32 ≤ len)
    (h : ∀ i : Fin 32, i.val < 29 → b1 i = b2 i) :
    classify len b1 = classify len b2 := by
  have hnl : ¬ len < 32 := Nat.not_lt.mpr hlen
  have hslice : pdbSlice b1 = pdbSlice b2 := by
    unfold pdbSlice
    exact congrArg List.ofFn (funext fun i => h ⟨2 + i.val, by omega⟩ (by
      have := i.isLt
      simp only []
      omega))
  have e0 := h 0 (by decide)
  have e1 := h 1 (by decide)
  have e2 := h 2 (by decide)
  have e3 := h 3 (by decide)
  have e5 := h 5 (by decide)
  have e16 := h 16 (by decide)
  have e17 := h 17 (by decide)
  unfold classify classifyBuf
  rw [if_neg hnl, if_neg hnl, e0, e1, e2, e3, e5, e16, e17, hslice]

/-- The byte of the PDB-signature slice at offset `j.val - 2` of the slice
is the header byte at offset `j`, for `2 ≤ j < 29`. -/
lemma pdbSlice_getD (buf : Header) (j : Fin 32) (h2 : 2 ≤ j.val) (h29 : j.val < 29) :
    (pdbSlice buf).getD (j.val - 2) (0 : Byte) = buf j := by
  unfold pdbSlice
  rw [List.getD_eq_getElem _ _ (by simp only [List.length_ofFn]; omega),
    List.getElem_ofFn]
  exact congrArg buf (Fin.ext (by simp only []; omega))

/-- C8: with byte 0 = `M` and byte 1 = `i` on a 32-byte-or-longer file,
the classification is `Pdb` exactly when bytes 2–28 equal the 27-byte
PDB signature, and altering any single byte of a matching signature
turns the classification into `Unknown`. -/
theorem classify_pdb_iff (len : Nat) (buf : Header) (hlen : 32 ≤ len)
    (h0 : buf 0 = 0x4D) (h1 : buf 1 = 0x69) :
    (classify len buf = FileType.Pdb ↔ pdbSlice buf = pdbMagic) ∧
    (pdbSlice buf = pdbMagic →
      ∀ j : Fin 32, 2 ≤ j.val → j.val < 29 → ∀ b : Byte, b ≠ buf j →
        classify len (Function.update buf j b) = FileType.Unknown) := by
  have hnl : ¬ len < 32 := Nat.not_lt.mpr hlen
  constructor
  · unfold classify classifyBuf
    rw [if_neg hnl, h0, h1, if_neg (by decide), if_pos rfl, if_neg (by decide),
      if_pos rfl]
    by_cases hc : pdbSlice buf = pdbMagic
    · rw [if_pos hc]
      simp [hc]
    · rw [if_neg hc]
      simp [hc]
  · intro hs j hj2 hj29 b hb
    have u0 : Function.update buf j b 0 = buf 0 := by
      refine Function.update_noteq (fun hEq => ?_) _ _
      rw [← hEq] at hj2
      exact absurd hj2 (by decide)
    have u1 : Function.update buf j b 1 = buf 1 := by
      refine Function.update_noteq (fun hEq => ?_) _ _
      rw [← hEq] at hj2
      exact absurd hj2 (by decide)
    have hne : pdbSlice (Function.update buf j b) ≠ pdbMagic := by
      intro hEq
      have key : (pdbSlice (Function.update buf j b)).getD (j.val - 2) (0 : Byte) =
          (pdbSlice buf).getD (j.val - 2) (0 : Byte) := by
        rw [hEq, hs]
      rw [pdbSlice_getD _ j hj2 hj29, pdbSlice_getD _ j hj2 hj29,
        Function.update_same] at key
      exact hb key
    unfold classify classifyBuf
    rw [if_neg hnl, u0, u1, h0, h1, if_neg (by decide), if_pos rfl,
      if_neg (by decide), if_pos rfl, if_neg hne]

/-- A full PDB header: `M`, `i`, the 27-byte signature, zero padding. -/
def pdbHeaderBytes : List Nat :=
  [0x4D, 0x69] ++ pdbMagic.map Fin.val

theorem classify_pdb_iff_witness :
    classify 32 (bufOfList pdbHeaderBytes) = FileType.Pdb ∧
    classify 32 (Function.update (bufOfList pdbHeaderBytes) 10 0) = FileType.Unknown :=
  ⟨(classify_pdb_iff 32 (bufOfList pdbHeaderBytes) (by decide) (by decide)
      (by decide)).1.mpr (by decide),
   (classify_pdb_iff 32 (bufOfList pdbHeaderBytes) (by decide) (by decide)
      (by decide)).2 (by decide) 10 (by decide) (by decide) 0 (by decide)⟩

theorem classify_uses_only_first29_witness :
    classify 32 (fun _ => (0 : Byte)) =
      classify 32 (fun i : Fin 32 => if i.val = 30 then 7 else 0) :=
  classify_uses_only_first29 32 (fun _ => (0 : Byte))
    (fun i : Fin 32 => if i.val = 30 then 7 else 0) (by decide) (by decide)

/-- One loop iteration of `repos_from_source_files` keeps the working-tree
roots of the accumulated repositories pairwise distinct: a repository is
only pushed after the `any` scan found no entry with the same root. -/
lemma reposStep_workdir_nodup (repos : List GitRepo) (file : FileEntry)
    (h : (repos.map (fun r => r.workdir)).Nodup) :
    ((reposStep repos file).map (fun r => r.workdir)).Nodup := by
  unfold reposStep
  by_cases hd : file.onDisk = true
  · rw [if_pos hd]
    cases hdisc : file.discovered with
    | none => exact h
    | some repo =>
      dsimp only
      by_cases hany : repos.any (fun x => x.workdir == repo.workdir) = true
      · rw [if_pos hany]
        exact h
      · rw [if_neg hany]
        by_cases htr : rel_path file.path repo.workdir ∈ repo.trackedAtHead
        · rw [if_pos htr, List.map_append, List.nodup_append]
          refine ⟨h, List.nodup_singleton _, ?_⟩
          intro a ha hb
          have hb' : a = repo.workdir := by
            simpa using hb
          subst hb'
          obtain ⟨x, hx, hxw⟩ := List.mem_map.mp ha
          exact hany (List.any_eq_true.mpr ⟨x, hx, beq_iff_eq.mpr hxw⟩)
        · rw [if_neg htr]
          exact h
  · rw [if_neg hd]
    exact h

/-- The fold underlying `repos_from_source_files` preserves distinctness
of working-tree roots from any starting accumulator. -/
lemma repos_foldl_workdir_nodup (files : List FileEntry) :
    ∀ repos : List GitRepo, (repos.map (fun r => r.workdir)).Nodup →
      ((files.foldl reposStep repos).map (fun r => r.workdir)).Nodup := by
  induction files with
  | nil => exact fun repos h => h
  | cons f fs ih => exact fun repos h => ih _ (reposStep_workdir_nodup repos f h)

/-- C5: the resolved-repository list never contains two entries with the
same working-tree root, however many input source files share a tree. -/
theorem repos_from_source_files_workdir_nodup (source_files : List FileEntry) :
    ((repos_from_source_files source_files).map (fun r => r.workdir)).Nodup :=
  repos_foldl_workdir_nodup source_files [] (by simp)

/-- C6: an on-disk source file whose relative path is not tracked at the
head revision does not get its tree added, while a sibling file in the
same tree that is tracked at head does get the tree included. -/
theorem untracked_excluded_tracked_included (r : GitRepo) (f g : FileEntry)
    (hf1 : f.onDisk = true) (hf2 : f.discovered = some r)
    (hf3 : rel_path f.path r.workdir ∉ r.trackedAtHead)
    (hg1 : g.onDisk = true) (hg2 : g.discovered = some r)
    (hg3 : rel_path g.path r.workdir ∈ r.trackedAtHead) :
    repos_from_source_files [f] = [] ∧ repos_from_source_files [f, g] = [r] := by
  have hstepf : reposStep [] f = [] := by
    simp [reposStep, hf1, hf2, hf3]
  have hstepg : reposStep [] g = [r] := by
    simp [reposStep, hg1, hg2, hg3]
  refine ⟨?_, ?_⟩
  · show List.foldl reposStep [] [f] = []
    rw [List.foldl_cons, hstepf, List.foldl_nil]
  · show List.foldl reposStep [] [f, g] = [r]
    rw [List.foldl_cons, hstepf, List.foldl_cons, hstepg, List.foldl_nil]

/-- A working tree at `/repo` tracking only `tracked.c` at head. -/
def sampleRepo : GitRepo :=
  { workdir := ["", "repo"]
    trackedAtHead := [["tracked.c"]]
    findRemoteOrigin := Except.error GitErrorCode.NotFound
    headTarget := "deadbeef" }

/-- An on-disk file inside `/repo` that is not tracked at head. -/
def untrackedEntry : FileEntry :=
  ⟨["", "repo", "untracked.c"], true, some sampleRepo⟩

/-- An on-disk sibling inside `/repo` that is tracked at head. -/
def trackedEntry : FileEntry :=
  ⟨["", "repo", "tracked.c"], true, some sampleRepo⟩

theorem untracked_excluded_tracked_included_witness :
    repos_from_source_files [untrackedEntry] = [] ∧
    repos_from_source_files [untrackedEntry, trackedEntry] = [sampleRepo] :=
  untracked_excluded_tracked_included sampleRepo untrackedEntry trackedEntry
    rfl rfl (by decide) rfl rfl (by decide)

/-- A repository at `/home/dev/widgets` whose `origin` remote is the
GitHub-style URL `https://github.com/acme/widgets.git`, at revision
`abc123`. -/
def widgetsRepo : GitRepo :=
  { workdir := ["", "home", "dev", "widgets"]
    trackedAtHead := []
    findRemoteOrigin := Except.ok (some "https://github.com/acme/widgets.git")
    headTarget := "abc123" }

/-- C1 fails as stated: for the origin `https://github.com/acme/widgets.git`
the second path segment is `widgets.git`, and `generate_github_url` uses
it verbatim, so the inserted URL keeps the `.git` suffix and is not the
claimed `https://api.github.com/repos/acme/widgets/contents/*?ref=abc123`. -/
theorem github_git_suffix_counterexample :
    generate_mapping [widgetsRepo] =
      Except.ok [("/home/dev/widgets/*",
        "https://api.github.com/repos/acme/widgets.git/contents/*?ref=abc123")] ∧
    ("https://api.github.com/repos/acme/widgets.git/contents/*?ref=abc123" : String) ≠
      "https://api.github.com/repos/acme/widgets/contents/*?ref=abc123" := by
  exact ⟨by decide, by decide⟩

/-- C1 (amended): for a remote origin URL that parses with domain
`github.com` and at least two path segments, `generate_mapping` inserts
the key `{workdir}/*` mapped to
`https://api.github.com/repos/{user}/{repo}/contents/*?ref={revision}`,
where `{user}` and `{repo}` are the first two path segments of the
remote URL taken verbatim (a trailing `.git` on the repository segment
is preserved). -/
theorem github_mapping_inserts_key (r : GitRepo) (urlStr hash user repo : String)
    (rest : List String) (u : Url)
    (hremote : r.findRemoteOrigin = Except.ok (some urlStr))
    (hparse : parseUrl urlStr = some u)
    (hdom : u.domain = some "github.com")
    (hsegs : u.pathSegments = user :: repo :: rest)
    (hhash : r.headTarget = hash) :
    generate_mapping [r] = Except.ok
      [(joinPath (r.workdir ++ ["*"]),
        "https://api.github.com/repos/" ++ user ++ "/" ++ repo ++
          "/contents/*?ref=" ++ hash)] := by
  simp [generate_mapping, List.foldlM, mappingStep, hremote, hparse, generate_url,
    hdom, generate_github_url, hsegs, hhash, hmInsert, Except.map, joinPath]

theorem github_mapping_inserts_key_witness :
    generate_mapping [widgetsRepo] = Except.ok
      [(joinPath (widgetsRepo.workdir ++ ["*"]),
        "https://api.github.com/repos/" ++ "acme" ++ "/" ++ "widgets.git" ++
          "/contents/*?ref=" ++ "abc123")] :=
  github_mapping_inserts_key widgetsRepo "https://github.com/acme/widgets.git"
    "abc123" "acme" "widgets.git" []
    ⟨"https", some "github.com", ["acme", "widgets.git"]⟩
    rfl (by decide) rfl rfl rfl

/-- C2 fails on the code: for a parseable remote URL on a supported domain
with too few path segments, the provider generators index out of range —
a panic — instead of skipping the repository as unsupported; the panic
propagates out of `generate_mapping` and aborts the batch. -/
theorem short_url_generation_panics :
    parseUrl "https://github.com" = some ⟨"https", some "github.com", [""]⟩ ∧
    generate_url ⟨"https", some "github.com", [""]⟩ "abc123" =
      Except.error PanicE.indexOutOfRange ∧
    generate_url ⟨"https", some "contoso.visualstudio.com", ["proj", "_git", "widgets"]⟩
      "def456" = Except.error PanicE.indexOutOfRange ∧
    generate_mapping
      [{ workdir := ["", "home", "dev", "widgets"]
         trackedAtHead := []
         findRemoteOrigin := Except.ok (some "https://github.com")
         headTarget := "abc123" }] = Except.error PanicE.indexOutOfRange := by
  exact ⟨by decide, by decide, by decide, by decide⟩
